import Mathlib

/-!
# Exploration Log (explorador-espacial/src/App.jsx)

A shallow embedding of the state held by the `App` component and of its event
handlers, together with the persistence effects (`JSON.parse` on load,
`JSON.stringify` on save).  Numbers in the persisted text are doubles, rounded
with exact integer arithmetic.

JavaScript strings are sequences of UTF-16 code units; they are modelled as
lists of natural numbers.  The four pieces of component state
(`planets`, `formData`, `editingPlanet`, `selectedPlanet`) are the fields of
`AppState`; every handler is a function from the state of the current render
(plus the event payload) to the state after the handler's `set...` calls.
-/

namespace ExplorationLog

/-- A JavaScript string: its UTF-16 code units. -/
abbrev JSString := List Nat

/-- Code units of a text made of characters of the Basic Multilingual Plane. -/
def utf16 (s : String) : JSString := s.toList.map Char.toNat

/-! ## Component state -/

/-- The object shape `{ id, name, description, image }` shared by the entries of
`planets` and by `formData`.  `id` is `null` (`none`) or a number. -/
structure Planet where
  id : Option Int
  name : JSString
  description : JSString
  image : JSString
deriving DecidableEq, Repr

/-- The four `useState` cells of `App`. -/
structure AppState where
  planets : List Planet
  formData : Planet
  editingPlanet : Option Planet
  selectedPlanet : Option Planet
deriving DecidableEq, Repr

/-- The literal `{ id: null, name: '', description: '', image: '' }`. -/
def emptyForm : Planet := { id := none, name := [], description := [], image := [] }

/-- State of the first render: `useState([])`, `useState(emptyForm)`,
`useState(null)`, `useState(null)`. -/
def initialState : AppState :=
  { planets := [], formData := emptyForm, editingPlanet := none, selectedPlanet := none }

/-- The `name` attribute of the two text inputs wired to `handleInputChange`. -/
inductive InputName
  | name
  | description
deriving DecidableEq, Repr

/-! ## Event handlers -/

/-- `setFormData(prev => ({ ...prev, [name]: value }))`. -/
def handleInputChange (s : AppState) (field : InputName) (value : JSString) : AppState :=
  match field with
  | .name => { s with formData := { s.formData with name := value } }
  | .description => { s with formData := { s.formData with description := value } }

/-- The `reader.onloadend` callback installed by `handleImageChange`:
`setFormData(prev => ({ ...prev, image: reader.result }))`. -/
def handleImageChange (s : AppState) (result : JSString) : AppState :=
  { s with formData := { s.formData with image := result } }

/-- The object spread `{ ...p, ...formData }`: every key of `formData`
(`id`, `name`, `description`, `image`) overrides the key of `p`. -/
def spread (p formData : Planet) : Planet :=
  { p with id := formData.id, name := formData.name,
           description := formData.description, image := formData.image }

/-- `handleFormSubmit`; `now` is the value returned by `Date.now()`. -/
def handleFormSubmit (s : AppState) (now : Int) : AppState :=
  match s.editingPlanet with
  | some editing =>
      { s with
        planets := s.planets.map (fun p => if p.id = editing.id then spread p s.formData else p)
        editingPlanet := none
        formData := emptyForm }
  | none =>
      { s with
        planets := s.planets ++ [{ s.formData with id := some now }]
        formData := emptyForm }

/-- `handleEdit(planet)`. -/
def handleEdit (s : AppState) (planet : Planet) : AppState :=
  { s with editingPlanet := some planet, formData := planet, selectedPlanet := none }

/-- `handleDelete(id)`. -/
def handleDelete (s : AppState) (id : Option Int) : AppState :=
  { s with planets := s.planets.filter (fun p => p.id ≠ id), selectedPlanet := none }

/-- The `onClick` of the "Cancelar Edición" button. -/
def cancelEdit (s : AppState) : AppState :=
  { s with editingPlanet := none, formData := emptyForm }

/-- `setSelectedPlanet(planet)` (click on a list row) and
`setSelectedPlanet(null)` (close button of the detail overlay). -/
def setSelectedPlanet (s : AppState) (planet : Option Planet) : AppState :=
  { s with selectedPlanet := planet }

/-! ## Event sequences -/

/-- The user events of the component, with their payloads. -/
inductive Event
  | inputChange (field : InputName) (value : JSString)
  | imageChange (result : JSString)
  | formSubmit (now : Int)
  | edit (planet : Planet)
  | cancelEdit
  | delete (id : Option Int)
  | select (planet : Planet)
  | deselect
deriving DecidableEq, Repr

/-- State after one event. -/
def step (s : AppState) : Event → AppState
  | .inputChange field value => handleInputChange s field value
  | .imageChange result => handleImageChange s result
  | .formSubmit now => handleFormSubmit s now
  | .edit planet => handleEdit s planet
  | .cancelEdit => cancelEdit s
  | .delete id => handleDelete s id
  | .select planet => setSelectedPlanet s (some planet)
  | .deselect => setSelectedPlanet s none

/-- The "Editar" button exists only on the rows of `planets`, so `handleEdit` is
only ever called with an entry of the current list; every other event is always
possible. -/
def Enabled (s : AppState) : Event → Prop
  | .edit planet => planet ∈ s.planets
  | _ => True

instance (s : AppState) (e : Event) : Decidable (Enabled s e) := by
  cases e <;> unfold Enabled <;> infer_instance

/-- States reachable from `s0` by a sequence of enabled events. -/
inductive Reachable (s0 : AppState) : AppState → Prop
  | init : Reachable s0 s0
  | next {s : AppState} (e : Event) : Reachable s0 s → Enabled s e → Reachable s0 (step s e)

/-- Events that leave an edit in progress as it is: they neither begin, submit
nor cancel an edit. -/
def Event.keepsEdit : Event → Bool
  | .inputChange _ _ => true
  | .imageChange _ => true
  | .delete _ => true
  | .select _ => true
  | .deselect => true
  | _ => false

/-- State after a list of events, oldest first. -/
def run (s : AppState) (es : List Event) : AppState := es.foldl step s

/-- The draft carries the id of the entry being edited. -/
def DraftTracksEdit (s : AppState) : Prop :=
  ∀ e, s.editingPlanet = some e → s.formData.id = e.id

/-- Every entry of the list has a non-null id, the entry being edited (if any)
has a non-null id, which the draft carries, and without an edit the id of the
draft is null. -/
def DraftIdInv (s : AppState) : Prop :=
  (∀ p ∈ s.planets, p.id ≠ none) ∧
  (∀ e, s.editingPlanet = some e → e.id ≠ none ∧ s.formData.id = e.id) ∧
  (s.editingPlanet = none → s.formData.id = none)

/-! ## JSON values and JSON text

`JSON.parse` is the platform function; it is modelled after the JSON grammar of
ECMA-404 as a scanner over code units followed by a parser over tokens.  Both
read their input once, left to right, and are total.  A number of the text is
rounded to the double it denotes (round to nearest, ties to even); an object is
kept as its members in the order of the text. -/

/-- A number as written in a JSON text: it denotes `± mant * 10 ^ exp`. -/
structure Decimal where
  neg : Bool
  mant : Nat
  exp : Int
deriving DecidableEq, Repr

/-- The magnitude of a double: `num / 2 ^ shift` with `num` odd or `shift = 0`,
or infinity. -/
inductive Magnitude
  | finite (num : Nat) (shift : Nat)
  | infinite
deriving DecidableEq, Repr

/-- A Number value other than NaN: sign and magnitude. -/
structure JSNumber where
  neg : Bool
  mag : Magnitude
deriving DecidableEq, Repr

/-- Floor of the binary logarithm of `n ≥ 1`; the first argument bounds the
recursion and `n` itself is always enough. -/
def ilog2 : Nat → Nat → Nat
  | 0, _ => 0
  | fuel + 1, n => if n < 2 then 0 else ilog2 fuel (n / 2) + 1

/-- Floor of the binary logarithm of the fraction `a / b`, for `a, b ≥ 1`. -/
def floorLog2 (a b : Nat) : Int :=
  let d : Int := (ilog2 a a : Int) - (ilog2 b b : Int)
  if 0 ≤ d then (if b * 2 ^ d.toNat ≤ a then d else d - 1)
  else (if b ≤ a * 2 ^ (-d).toNat then d else d - 1)

/-- The integer nearest to `a / b`, the even one of two equally near. -/
def roundHalfEven (a b : Nat) : Nat :=
  if 2 * (a % b) < b then a / b
  else if b < 2 * (a % b) then a / b + 1
  else if a / b % 2 = 0 then a / b
  else a / b + 1

/-- The magnitude `num / 2 ^ shift` in lowest terms. -/
def normalize : Nat → Nat → Magnitude
  | num, 0 => .finite num 0
  | num, shift + 1 => if num % 2 = 0 then normalize (num / 2) shift else .finite num (shift + 1)

/-- The double nearest to the fraction `a / b` (`b ≥ 1`), ties to even: 53
significant bits, the least unit no smaller than `2 ^ -1074`, and infinity when
the rounded value reaches `2 ^ 1024`. -/
def roundDouble (a b : Nat) : Magnitude :=
  if a = 0 then .finite 0 0
  else if 1024 ≤ floorLog2 a b then .infinite
  else if 52 ≤ floorLog2 a b then
    (if floorLog2 a b = 1023 ∧
        roundHalfEven a (b * 2 ^ (floorLog2 a b - 52).toNat) = 9007199254740992 then .infinite
     else .finite (roundHalfEven a (b * 2 ^ (floorLog2 a b - 52).toNat)
          * 2 ^ (floorLog2 a b - 52).toNat) 0)
  else
    normalize (roundHalfEven (a * 2 ^ (min (52 - floorLog2 a b) 1074).toNat) b)
      (min (52 - floorLog2 a b) 1074).toNat

/-- The Number value of a decimal of the text. -/
def Decimal.toNumber (d : Decimal) : JSNumber :=
  { neg := d.neg
    mag := if 0 ≤ d.exp then roundDouble (d.mant * 10 ^ d.exp.toNat) 1
           else roundDouble d.mant (10 ^ (-d.exp).toNat) }

/-- The tree of a JSON text. -/
inductive JSValue
  | null
  | bool (b : Bool)
  | num (n : JSNumber)
  | str (s : JSString)
  | arr (items : List JSValue)
  | obj (members : List (JSString × JSValue))
deriving Repr

/-- The tokens of a JSON text. -/
inductive Token
  | lbrack
  | rbrack
  | lbrace
  | rbrace
  | colon
  | comma
  | null
  | bool (b : Bool)
  | num (n : Decimal)
  | str (s : JSString)
deriving DecidableEq, Repr

/-- What the scanner is in the middle of. -/
inductive Scan
  | start
  | word (rest : List Nat) (tok : Token)
  | str (acc : JSString)
  | esc (acc : JSString)
  | hex (acc : JSString) (seen : Nat) (v : Nat)
  | minus
  | zero (neg : Bool)
  | int (neg : Bool) (mant : Nat)
  | dot (neg : Bool) (mant : Nat)
  | frac (neg : Bool) (mant : Nat) (places : Nat)
  | expMark (neg : Bool) (mant : Nat) (places : Nat)
  | expSign (neg : Bool) (mant : Nat) (places : Nat) (eneg : Bool)
  | expDigits (neg : Bool) (mant : Nat) (places : Nat) (eneg : Bool) (e : Nat)
deriving DecidableEq, Repr

/-- Decimal digit `0`..`9` (code units 48..57). -/
def isDigit (c : Nat) : Bool := decide (48 ≤ c) && decide (c ≤ 57)

/-- Value of a hexadecimal digit `0-9`, `a-f`, `A-F`. -/
def hexVal (c : Nat) : Option Nat :=
  if 48 ≤ c ∧ c ≤ 57 then some (c - 48)
  else if 97 ≤ c ∧ c ≤ 102 then some (c - 87)
  else if 65 ≤ c ∧ c ≤ 70 then some (c - 55)
  else none

/-- The scanner between tokens: white space (space, tab, line feed, carriage
return) is skipped, a punctuation mark is a token, and `"`, `-`, a digit or the
first letter of `true`, `false`, `null` opens a longer token. -/
def scanStart (c : Nat) : Option (List Token × Scan) :=
  if c = 32 ∨ c = 9 ∨ c = 10 ∨ c = 13 then some ([], .start)
  else if c = 91 then some ([.lbrack], .start)
  else if c = 93 then some ([.rbrack], .start)
  else if c = 123 then some ([.lbrace], .start)
  else if c = 125 then some ([.rbrace], .start)
  else if c = 58 then some ([.colon], .start)
  else if c = 44 then some ([.comma], .start)
  else if c = 34 then some ([], .str [])
  else if c = 45 then some ([], .minus)
  else if c = 48 then some ([], .zero false)
  else if 49 ≤ c ∧ c ≤ 57 then some ([], .int false (c - 48))
  else if c = 116 then some ([], .word [114, 117, 101] (.bool true))
  else if c = 102 then some ([], .word [97, 108, 115, 101] (.bool false))
  else if c = 110 then some ([], .word [117, 108, 108] .null)
  else none

/-- A number ends at the first code unit that cannot continue it; that code
unit is then read as the scanner reads between tokens. -/
def scanAfterNumber (n : Decimal) (c : Nat) : Option (List Token × Scan) :=
  match scanStart c with
  | none => none
  | some (toks, mode) => some (.num n :: toks, mode)

/-- One code unit of the scanner: tokens completed by it, and the next mode;
`none` is a syntax error. -/
def scanStep : Scan → Nat → Option (List Token × Scan)
  | .start, c => scanStart c
  | .word [] _, _ => none
  | .word [x] tok, c => if c = x then some ([tok], .start) else none
  | .word (x :: y :: rest) tok, c => if c = x then some ([], .word (y :: rest) tok) else none
  | .str acc, c =>
      if c = 34 then some ([.str acc], .start)
      else if c = 92 then some ([], .esc acc)
      else if c < 32 then none
      else some ([], .str (acc ++ [c]))
  | .esc acc, c =>
      if c = 34 ∨ c = 92 ∨ c = 47 then some ([], .str (acc ++ [c]))
      else if c = 98 then some ([], .str (acc ++ [8]))
      else if c = 102 then some ([], .str (acc ++ [12]))
      else if c = 110 then some ([], .str (acc ++ [10]))
      else if c = 114 then some ([], .str (acc ++ [13]))
      else if c = 116 then some ([], .str (acc ++ [9]))
      else if c = 117 then some ([], .hex acc 0 0)
      else none
  | .hex acc seen v, c =>
      match hexVal c with
      | none => none
      | some h =>
          if seen = 3 then some ([], .str (acc ++ [v * 16 + h]))
          else some ([], .hex acc (seen + 1) (v * 16 + h))
  | .minus, c =>
      if c = 48 then some ([], .zero true)
      else if 49 ≤ c ∧ c ≤ 57 then some ([], .int true (c - 48))
      else none
  | .zero neg, c =>
      if c = 46 then some ([], .dot neg 0)
      else if c = 101 ∨ c = 69 then some ([], .expMark neg 0 0)
      else scanAfterNumber ⟨neg, 0, 0⟩ c
  | .int neg mant, c =>
      if isDigit c then some ([], .int neg (mant * 10 + (c - 48)))
      else if c = 46 then some ([], .dot neg mant)
      else if c = 101 ∨ c = 69 then some ([], .expMark neg mant 0)
      else scanAfterNumber ⟨neg, mant, 0⟩ c
  | .dot neg mant, c =>
      if isDigit c then some ([], .frac neg (mant * 10 + (c - 48)) 1) else none
  | .frac neg mant places, c =>
      if isDigit c then some ([], .frac neg (mant * 10 + (c - 48)) (places + 1))
      else if c = 101 ∨ c = 69 then some ([], .expMark neg mant places)
      else scanAfterNumber ⟨neg, mant, - (places : Int)⟩ c
  | .expMark neg mant places, c =>
      if c = 43 then some ([], .expSign neg mant places false)
      else if c = 45 then some ([], .expSign neg mant places true)
      else if isDigit c then some ([], .expDigits neg mant places false (c - 48))
      else none
  | .expSign neg mant places eneg, c =>
      if isDigit c then some ([], .expDigits neg mant places eneg (c - 48)) else none
  | .expDigits neg mant places eneg e, c =>
      if isDigit c then some ([], .expDigits neg mant places eneg (e * 10 + (c - 48)))
      else scanAfterNumber ⟨neg, mant, (if eneg then - (e : Int) else (e : Int)) - places⟩ c

/-- End of the text: a number in progress is complete if it has the digits it
needs; an open string, escape, word or a dangling sign, point or exponent mark
is a syntax error. -/
def scanEnd : Scan → Option (List Token)
  | .start => some []
  | .zero neg => some [.num ⟨neg, 0, 0⟩]
  | .int neg mant => some [.num ⟨neg, mant, 0⟩]
  | .frac neg mant places => some [.num ⟨neg, mant, - (places : Int)⟩]
  | .expDigits neg mant places eneg e =>
      some [.num ⟨neg, mant, (if eneg then - (e : Int) else (e : Int)) - places⟩]
  | _ => none

/-- The tokens of a text, or `none` on a syntax error. -/
def tokenize : Scan → List Nat → Option (List Token)
  | mode, [] => scanEnd mode
  | mode, c :: cs =>
      match scanStep mode c with
      | none => none
      | some (toks, mode') =>
          match tokenize mode' cs with
          | none => none
          | some more => some (toks ++ more)

/-- An array or object under construction, waiting for the value being read. -/
inductive Frame
  | arr (items : List JSValue)
  | obj (members : List (JSString × JSValue)) (key : JSString)

/-- What the parser expects next; `stack` holds the enclosing arrays and
objects, innermost first. -/
inductive Parse
  | value (stack : List Frame)
  | arrOpen (stack : List Frame)
  | arrNext (items : List JSValue) (stack : List Frame)
  | objOpen (stack : List Frame)
  | objKey (members : List (JSString × JSValue)) (stack : List Frame)
  | objColon (members : List (JSString × JSValue)) (key : JSString) (stack : List Frame)
  | objNext (members : List (JSString × JSValue)) (stack : List Frame)
  | done (v : JSValue)

/-- A value is complete: it is the whole text, the next item of the innermost
array, or the value of the pending key of the innermost object. -/
def complete (v : JSValue) : List Frame → Parse
  | [] => .done v
  | .arr items :: stack => .arrNext (items ++ [v]) stack
  | .obj members key :: stack => .objNext (members ++ [(key, v)]) stack

/-- A token where a value is expected. -/
def parseValue (stack : List Frame) : Token → Option Parse
  | .null => some (complete .null stack)
  | .bool b => some (complete (.bool b) stack)
  | .num n => some (complete (.num n.toNumber) stack)
  | .str s => some (complete (.str s) stack)
  | .lbrack => some (.arrOpen stack)
  | .lbrace => some (.objOpen stack)
  | _ => none

/-- One token of the parser; `none` is a syntax error. -/
def parseStep : Parse → Token → Option Parse
  | .value stack, t => parseValue stack t
  | .arrOpen stack, .rbrack => some (complete (.arr []) stack)
  | .arrOpen stack, t => parseValue (.arr [] :: stack) t
  | .arrNext items stack, .comma => some (.value (.arr items :: stack))
  | .arrNext items stack, .rbrack => some (complete (.arr items) stack)
  | .objOpen stack, .rbrace => some (complete (.obj []) stack)
  | .objOpen stack, .str key => some (.objColon [] key stack)
  | .objKey members stack, .str key => some (.objColon members key stack)
  | .objColon members key stack, .colon => some (.value (.obj members key :: stack))
  | .objNext members stack, .comma => some (.objKey members stack)
  | .objNext members stack, .rbrace => some (complete (.obj members) stack)
  | _, _ => none

/-- The value of a token sequence, or `none` on a syntax error. -/
def parseTokens : Parse → List Token → Option JSValue
  | .done v, [] => some v
  | _, [] => none
  | state, t :: ts =>
      match parseStep state t with
      | none => none
      | some state' => parseTokens state' ts

/-- The exceptions of the model. -/
inductive JSError
  | syntaxError
deriving DecidableEq, Repr

/-- `JSON.parse(text)`: the value of the text, or a `SyntaxError`. -/
def JSON.parse (text : JSString) : Except JSError JSValue :=
  match tokenize .start text with
  | none => throw .syntaxError
  | some toks =>
      match parseTokens (.value []) toks with
      | none => throw .syntaxError
      | some v => pure v

/-- Whether the Number is `+0` or `-0`. -/
def JSNumber.isZero (n : JSNumber) : Bool :=
  match n.mag with
  | .finite num _ => num == 0
  | .infinite => false

/-- `ToBoolean`, the test of `if (storedPlanets)`: `null`, `false`, zero and the
empty string are falsy, everything else (every array and object) is truthy. -/
def toBoolean : JSValue → Bool
  | .null => false
  | .bool b => b
  | .num n => !n.isZero
  | .str s => !s.isEmpty
  | .arr _ => true
  | .obj _ => true

/-! ## Persistence effects

Both effects use the one key `'exploration-log-planets'`, so the storage is
modelled by the single item under that key.  `console.error` has no effect on
the state and is left out. -/

/-- The argument of `JSON.parse` is converted to a string: `getItem` returns
`null` for a missing key, and `null` becomes the text `null`. -/
def itemText : Option JSString → JSString
  | none => [110, 117, 108, 108]
  | some text => text

/-- The mount effect.  `item` is what `localStorage.getItem` returns (`none` for
a missing key); the result is the value of the `planets` cell after the effect,
which starts as `[]`.  An error result would be an exception leaving the
effect. -/
def loadPlanets (item : Option JSString) : Except JSError JSValue :=
  try
    let storedPlanets ← JSON.parse (itemText item)
    if toBoolean storedPlanets then
      pure storedPlanets
    else
      pure (.arr [])
  catch _ =>
    pure (.arr [])

/-- Decimal digits of a natural number, most significant first.  The first
argument bounds the number of digits after the first; `n` itself is always
enough. -/
def decimalDigits : Nat → Nat → List Nat
  | 0, n => [48 + n % 10]
  | fuel + 1, n => if n < 10 then [48 + n] else decimalDigits fuel (n / 10) ++ [48 + n % 10]

/-- Whether the integer `c` rounds to the integer double `x`. -/
def roundsTo (c x : Nat) : Bool := decide (roundDouble c 1 = .finite x 0)

/-- The candidates with `k` digits for the shortest decimal of the integer double
`x` of `d` digits: the multiples of `10 ^ (d - k)` just below and just above
`x`.  The result is `(s, q)` for the candidate `s * 10 ^ q` that rounds to `x`
and is nearest to `x` (the even `s` of two equally near), if there is one. -/
def shortestAt (x d k : Nat) : Option (Nat × Nat) :=
  let q := d - k
  let lo := x / 10 ^ q
  let below := lo * 10 ^ q
  let above := (lo + 1) * 10 ^ q
  if roundsTo below x && roundsTo above x then
    (if x - below < above - x then some (lo, q)
     else if above - x < x - below then some (lo + 1, q)
     else if lo % 2 = 0 then some (lo, q)
     else some (lo + 1, q))
  else if roundsTo below x then some (lo, q)
  else if roundsTo above x then some (lo + 1, q)
  else none

/-- The shortest decimal `s * 10 ^ q` that rounds to the integer double `x` of `d`
digits, trying `k`, `k + 1`, ... digits; 17 digits always suffice. -/
def shortestFrom (x d : Nat) : Nat → Nat → Nat × Nat
  | 0, _ => (x, 0)
  | fuel + 1, k =>
      match shortestAt x d k with
      | some r => r
      | none => shortestFrom x d fuel (k + 1)

/-- Removes the trailing zeros of `s`, counting them into `q`. -/
def stripZeros : Nat → Nat → Nat → Nat × Nat
  | 0, s, q => (s, q)
  | fuel + 1, s, q => if s ≠ 0 ∧ s % 10 = 0 then stripZeros fuel (s / 10) (q + 1) else (s, q)

/-- `Number::toString` on a positive integer double `x`.  Below `2 ^ 53` every
integer is a double, so the shortest decimal that rounds to `x` is `x` itself and
all its digits are written.  From `2 ^ 53` on, the digits of the shortest decimal
`s * 10 ^ q` are followed by `q` zeros when there are at most 21 digits in all,
and written with an exponent (`d.ddde+nn`) otherwise. -/
def integerToString (x : Nat) : JSString :=
  if x < 9007199254740992 then decimalDigits x x
  else
    let d := (decimalDigits x x).length
    let r := shortestFrom x d 17 1
    let t := stripZeros 17 r.1 r.2
    let digits := decimalDigits t.1 t.1
    if digits.length + t.2 ≤ 21 then digits ++ List.replicate t.2 48
    else
      match digits with
      | [] => []
      | [c] => c :: 101 :: 43 :: decimalDigits t.2 t.2
      | c :: more =>
          c :: 46 :: more ++ 101 :: 43 ::
            decimalDigits (more.length + t.2) (more.length + t.2)

/-- The Number value of an integer id (the integer itself when it is a double). -/
def idNumber (n : Int) : JSNumber :=
  Decimal.toNumber ⟨decide (n < 0), n.natAbs, 0⟩

/-- The text `JSON.stringify` writes for a Number that is an integer: `null` for
an infinity, else an optional `-` and `Number::toString` of the magnitude. -/
def numberToString (n : Int) : JSString :=
  match (idNumber n).mag with
  | .infinite => [110, 117, 108, 108]
  | .finite x _ => if n < 0 then 45 :: integerToString x else integerToString x

/-- An id the text keeps exactly: `null`, or an integer below `2 ^ 53` in absolute
value, as every `Date.now()` is. -/
def SafeId : Option Int → Prop
  | none => True
  | some n => n.natAbs < 9007199254740992

instance (id : Option Int) : Decidable (SafeId id) := by
  cases id <;> unfold SafeId <;> infer_instance

/-- Lower-case hexadecimal digit of a value below 16. -/
def hexDigit (v : Nat) : Nat := if v < 10 then 48 + v else 87 + v

/-- `UnicodeEscape`: a backslash, `u` and four hexadecimal digits. -/
def unicodeEscape (c : Nat) : List Nat :=
  [92, 117, hexDigit (c / 4096 % 16), hexDigit (c / 256 % 16), hexDigit (c / 16 % 16),
   hexDigit (c % 16)]

/-- Leading surrogate. -/
def isHigh (c : Nat) : Bool := decide (55296 ≤ c) && decide (c ≤ 56319)

/-- Trailing surrogate. -/
def isLow (c : Nat) : Bool := decide (56320 ≤ c) && decide (c ≤ 57343)

/-- A code unit that is not part of a surrogate pair, as `QuoteJSONString`
writes it. -/
def quoteUnit (c : Nat) : List Nat :=
  if c = 8 then [92, 98]
  else if c = 9 then [92, 116]
  else if c = 10 then [92, 110]
  else if c = 12 then [92, 102]
  else if c = 13 then [92, 114]
  else if c = 34 then [92, 34]
  else if c = 92 then [92, 92]
  else if c < 32 ∨ isHigh c ∨ isLow c then unicodeEscape c
  else [c]

/-- The inside of a quoted string: a surrogate pair is written as it is, every
other code unit by `quoteUnit`. -/
def quoteBody : JSString → List Nat
  | [] => []
  | [c] => quoteUnit c
  | c :: d :: rest =>
      if isHigh c && isLow d then c :: d :: quoteBody rest
      else quoteUnit c ++ quoteBody (d :: rest)

/-- `QuoteJSONString`. -/
def quoteJSONString (s : JSString) : JSString := 34 :: quoteBody s ++ [34]

/-- The text of the `id` property value. -/
def idText : Option Int → JSString
  | none => [110, 117, 108, 108]
  | some n => numberToString n

/-- The text of one entry:
`{"id":…,"name":"…","description":"…","image":"…"}`. -/
def stringifyPlanet (p : Planet) : JSString :=
  [123, 34, 105, 100, 34, 58] ++ idText p.id ++
  [44, 34, 110, 97, 109, 101, 34, 58] ++ quoteJSONString p.name ++
  [44, 34, 100, 101, 115, 99, 114, 105, 112, 116, 105, 111, 110, 34, 58] ++
    quoteJSONString p.description ++
  [44, 34, 105, 109, 97, 103, 101, 34, 58] ++ quoteJSONString p.image ++ [125]

/-- The text after the first entry: each further entry behind a comma. -/
def morePlanets : List Planet → JSString
  | [] => []
  | q :: rest => 44 :: stringifyPlanet q ++ morePlanets rest

/-- The texts of the entries, separated by commas. -/
def joinPlanets : List Planet → JSString
  | [] => []
  | p :: rest => stringifyPlanet p ++ morePlanets rest

/-- `JSON.stringify(planets)` on a list of entries. -/
def JSON.stringify (planets : List Planet) : JSString :=
  91 :: joinPlanets planets ++ [93]

/-- The `id` property as a value: `null`, or the Number of the integer. -/
def idValue : Option Int → JSValue
  | none => .null
  | some n => .num (idNumber n)

/-- An entry as a value: the object with the four properties in the order
`id`, `name`, `description`, `image`. -/
def Planet.toJS (p : Planet) : JSValue :=
  .obj [([105, 100], idValue p.id),
        ([110, 97, 109, 101], .str p.name),
        ([100, 101, 115, 99, 114, 105, 112, 116, 105, 111, 110], .str p.description),
        ([105, 109, 97, 103, 101], .str p.image)]

/-- A list of entries as a value: the array of the entries. -/
def planetsToJS (planets : List Planet) : JSValue := .arr (planets.map Planet.toJS)

/-- The persist effect, `localStorage.setItem(key, JSON.stringify(planets))`: the
text written under the storage key. -/
def persistPlanets (planets : List Planet) : JSString := JSON.stringify planets

/-! ## Tokens of the text of a list of entries -/

/-- Token of the text of a safe id: an integer below `2 ^ 53` is written with all
its digits. -/
def idToken : Option Int → Token
  | none => .null
  | some n => .num ⟨decide (n < 0), n.natAbs, 0⟩

/-- The tokens of the text of one entry. -/
def planetTokens (p : Planet) : List Token :=
  [.lbrace, .str [105, 100], .colon, idToken p.id, .comma,
   .str [110, 97, 109, 101], .colon, .str p.name, .comma,
   .str [100, 101, 115, 99, 114, 105, 112, 116, 105, 111, 110], .colon, .str p.description,
   .comma, .str [105, 109, 97, 103, 101], .colon, .str p.image, .rbrace]

/-- The tokens after the first entry. -/
def moreTokens : List Planet → List Token
  | [] => []
  | q :: rest => .comma :: planetTokens q ++ moreTokens rest

/-- The tokens of the entries, separated by commas. -/
def joinTokens : List Planet → List Token
  | [] => []
  | p :: rest => planetTokens p ++ moreTokens rest

/-! ## Facts about the handlers -/

theorem handleFormSubmit_editing (s : AppState) (now : Int) (editing : Planet)
    (h : s.editingPlanet = some editing) :
    handleFormSubmit s now =
      { s with
        planets := s.planets.map (fun p => if p.id = editing.id then spread p s.formData else p)
        editingPlanet := none
        formData := emptyForm } := by
  simp [handleFormSubmit, h]

theorem handleFormSubmit_creating (s : AppState) (now : Int) (h : s.editingPlanet = none) :
    handleFormSubmit s now =
      { s with
        planets := s.planets ++ [{ s.formData with id := some now }]
        formData := emptyForm } := by
  simp [handleFormSubmit, h]

theorem step_keepsEdit (s : AppState) (ev : Event) (h : ev.keepsEdit = true) :
    (step s ev).editingPlanet = s.editingPlanet ∧ (step s ev).formData.id = s.formData.id := by
  cases ev with
  | inputChange field value => cases field <;> simp [step, handleInputChange]
  | imageChange result => simp [step, handleImageChange]
  | formSubmit now => simp [Event.keepsEdit] at h
  | edit planet => simp [Event.keepsEdit] at h
  | cancelEdit => simp [Event.keepsEdit] at h
  | delete id => simp [step, handleDelete]
  | select planet => simp [step, setSelectedPlanet]
  | deselect => simp [step, setSelectedPlanet]

theorem run_keepsEdit (es : List Event) (s : AppState) (h : ∀ ev ∈ es, ev.keepsEdit = true) :
    (run s es).editingPlanet = s.editingPlanet ∧ (run s es).formData.id = s.formData.id := by
  induction es generalizing s with
  | nil => simp [run]
  | cons ev es ih =>
    have h1 := step_keepsEdit s ev (h ev (List.mem_cons_self _ _))
    have h2 := ih (step s ev) (fun x hx => h x (List.mem_cons_of_mem _ hx))
    simp only [run, List.foldl_cons] at h2 ⊢
    exact ⟨h2.1.trans h1.1, h2.2.trans h1.2⟩

/-- With the draft carrying the id of the entry being edited, the entries that
`handleFormSubmit` rewrites keep their id and take the three text fields of the
draft. -/
theorem submit_edit_map (l : List Planet) (editing formData : Planet)
    (hid : formData.id = editing.id) :
    l.map (fun p => if p.id = editing.id then spread p formData else p) =
      l.map (fun p => if p.id = editing.id then
        { p with name := formData.name, description := formData.description,
                 image := formData.image } else p) := by
  apply List.map_congr_left
  intro p _
  by_cases hp : p.id = editing.id
  · simp only [hp, if_true, spread]
    rw [hid, ← hp]
  · simp [hp]

/-! ## Submit -/

/-- C1. Submit while an edit begun by `handleEdit s0 e` is in progress (any
number of field edits, image loads, deletions and selection changes may have
happened since): the list keeps its length, at every position an entry whose id
is the id of `e` is replaced by itself with the name, description and image of
the draft, every other entry stays as and where it is, edit mode is cleared and
the draft is the empty shape. -/
theorem submit_edit_replaces_in_place (s0 : AppState) (e : Planet) (es : List Event)
    (hes : ∀ ev ∈ es, ev.keepsEdit = true) (now : Int) :
    (handleFormSubmit (run (handleEdit s0 e) es) now).planets.length
        = (run (handleEdit s0 e) es).planets.length ∧
    (∀ (i : Nat) (p : Planet), (run (handleEdit s0 e) es).planets[i]? = some p →
        (handleFormSubmit (run (handleEdit s0 e) es) now).planets[i]? =
          some (if p.id = e.id then
            { p with name := (run (handleEdit s0 e) es).formData.name
                     description := (run (handleEdit s0 e) es).formData.description
                     image := (run (handleEdit s0 e) es).formData.image }
          else p)) ∧
    (handleFormSubmit (run (handleEdit s0 e) es) now).editingPlanet = none ∧
    (handleFormSubmit (run (handleEdit s0 e) es) now).formData
        = { id := none, name := [], description := [], image := [] } := by
  obtain ⟨hed, hid⟩ := run_keepsEdit es (handleEdit s0 e) hes
  have hed' : (run (handleEdit s0 e) es).editingPlanet = some e := by
    rw [hed]; rfl
  have hid' : (run (handleEdit s0 e) es).formData.id = e.id := by
    rw [hid]; rfl
  rw [handleFormSubmit_editing _ now e hed', submit_edit_map _ e _ hid']
  refine ⟨by simp, ?_, rfl, rfl⟩
  intro i p hp
  simp [List.getElem?_map, hp]

/-- C1, at a concrete input: the example of the specification (an entry named
"M" is renamed "New"). -/
theorem submit_edit_replaces_in_place_witness :
    (∀ ev ∈ [Event.inputChange .name [78, 101, 119]], ev.keepsEdit = true) ∧
    (handleFormSubmit (run (handleEdit
        { planets := [⟨some 1, [77], [82], []⟩], formData := emptyForm,
          editingPlanet := none, selectedPlanet := none } ⟨some 1, [77], [82], []⟩)
        [Event.inputChange .name [78, 101, 119]]) 5).planets[0]?
      = some ⟨some 1, [78, 101, 119], [82], []⟩ :=
  ⟨by decide,
   (submit_edit_replaces_in_place
      { planets := [⟨some 1, [77], [82], []⟩], formData := emptyForm,
        editingPlanet := none, selectedPlanet := none } ⟨some 1, [77], [82], []⟩
      [Event.inputChange .name [78, 101, 119]] (by decide) 5).2.1 0
      ⟨some 1, [77], [82], []⟩ rfl⟩

/-- C2. Submit with no edit in progress: the new list is the old list followed
by exactly one entry, which carries the name, description and image of the
draft and the timestamp as id; the length grows by one, every earlier entry
keeps its position, and the draft is the empty shape afterwards. -/
theorem submit_create_appends (s : AppState) (now : Int) (h : s.editingPlanet = none) :
    (handleFormSubmit s now).planets =
      s.planets ++ [{ id := some now, name := s.formData.name,
                      description := s.formData.description, image := s.formData.image }] ∧
    (handleFormSubmit s now).planets.length = s.planets.length + 1 ∧
    (∀ (i : Nat) (p : Planet), s.planets[i]? = some p →
        (handleFormSubmit s now).planets[i]? = some p) ∧
    (handleFormSubmit s now).formData
        = { id := none, name := [], description := [], image := [] } := by
  rw [handleFormSubmit_creating s now h]
  refine ⟨rfl, by simp, ?_, rfl⟩
  intro i p hp
  have hi : i < s.planets.length := by
    rcases Nat.lt_or_ge i s.planets.length with hlt | hge
    · exact hlt
    · rw [List.getElem?_eq_none hge] at hp; cases hp
  simp only [List.getElem?_append_left hi, hp]

/-- C2, at a concrete input: the example of the specification. -/
theorem submit_create_appends_witness :
    (handleFormSubmit { planets := [], formData := ⟨none, [77, 97, 114, 115], [82, 101, 100], []⟩,
                        editingPlanet := none, selectedPlanet := none } 1700000000000).planets
      = [⟨some 1700000000000, [77, 97, 114, 115], [82, 101, 100], []⟩] :=
  (submit_create_appends
    { planets := [], formData := ⟨none, [77, 97, 114, 115], [82, 101, 100], []⟩,
      editingPlanet := none, selectedPlanet := none } 1700000000000 rfl).1

/-! ## Delete and selection -/

/-- Filtering out an id that occurs exactly once removes exactly that entry. -/
theorem filter_ne_id_split (l : List Planet) (id : Option Int)
    (hnd : (l.map (fun p => p.id)).Nodup) (hmem : ∃ p ∈ l, p.id = id) :
    ∃ (before after : List Planet) (q : Planet),
      l = before ++ q :: after ∧ q.id = id ∧
      l.filter (fun p => p.id ≠ id) = before ++ after := by
  induction l with
  | nil => obtain ⟨p, hp, _⟩ := hmem; cases hp
  | cons a l ih =>
    rw [List.map_cons, List.nodup_cons] at hnd
    by_cases ha : a.id = id
    · refine ⟨[], l, a, rfl, ha, ?_⟩
      have hall : ∀ p ∈ l, p.id ≠ id := by
        intro p hp hpid
        exact hnd.1 (List.mem_map.mpr ⟨p, hp, hpid.trans ha.symm⟩)
      rw [List.filter_cons_of_neg (by simpa using ha)]
      simpa [List.filter_eq_self] using hall
    · obtain ⟨p, hp, hpid⟩ := hmem
      have hpl : p ∈ l := by
        rcases List.mem_cons.mp hp with h | h
        · exact absurd (h ▸ hpid) ha
        · exact h
      obtain ⟨before, after, q, hl, hq, hf⟩ := ih hnd.2 ⟨p, hpl, hpid⟩
      refine ⟨a :: before, after, q, by rw [hl]; rfl, hq, ?_⟩
      rw [List.filter_cons_of_pos (by simpa using ha), hf]; rfl

/-- C3. Delete: on a list with pairwise distinct ids that holds an entry with
the id, the result is one shorter, holds no entry with the id, and is the list
with that one entry cut out (the others in their order); on a list without the
id the result is the list itself. -/
theorem delete_removes_matching (s : AppState) (id : Option Int) :
    ((s.planets.map (fun p => p.id)).Nodup → (∃ p ∈ s.planets, p.id = id) →
      (handleDelete s id).planets.length + 1 = s.planets.length ∧
      (∀ p ∈ (handleDelete s id).planets, p.id ≠ id) ∧
      ∃ (before after : List Planet) (q : Planet),
        s.planets = before ++ q :: after ∧ q.id = id ∧
        (handleDelete s id).planets = before ++ after) ∧
    ((∀ p ∈ s.planets, p.id ≠ id) → (handleDelete s id).planets = s.planets) := by
  constructor
  · intro hnd hmem
    obtain ⟨before, after, q, hl, hq, hf⟩ := filter_ne_id_split s.planets id hnd hmem
    refine ⟨?_, ?_, before, after, q, hl, hq, hf⟩
    · show (s.planets.filter (fun p => p.id ≠ id)).length + 1 = s.planets.length
      rw [hf, hl]; simp; omega
    · intro p hp
      have hp' : p ∈ s.planets.filter (fun p => p.id ≠ id) := hp
      simpa using (List.mem_filter.mp hp').2
  · intro habs
    show s.planets.filter (fun p => p.id ≠ id) = s.planets
    simpa [List.filter_eq_self] using habs

/-- C3, at concrete inputs: deleting id 7 from a list of three, and deleting the
absent id 999. -/
theorem delete_removes_matching_witness :
    (handleDelete { planets := [⟨some 3, [], [], []⟩, ⟨some 7, [], [], []⟩, ⟨some 9, [], [], []⟩],
                    formData := emptyForm, editingPlanet := none, selectedPlanet := none }
        (some 7)).planets.length + 1 = 3 ∧
    (handleDelete { planets := [⟨some 3, [], [], []⟩, ⟨some 7, [], [], []⟩, ⟨some 9, [], [], []⟩],
                    formData := emptyForm, editingPlanet := none, selectedPlanet := none }
        (some 999)).planets
      = [⟨some 3, [], [], []⟩, ⟨some 7, [], [], []⟩, ⟨some 9, [], [], []⟩] :=
  ⟨((delete_removes_matching
      { planets := [⟨some 3, [], [], []⟩, ⟨some 7, [], [], []⟩, ⟨some 9, [], [], []⟩],
        formData := emptyForm, editingPlanet := none, selectedPlanet := none } (some 7)).1
      (by decide) ⟨⟨some 7, [], [], []⟩, by decide, rfl⟩).1,
   (delete_removes_matching
      { planets := [⟨some 3, [], [], []⟩, ⟨some 7, [], [], []⟩, ⟨some 9, [], [], []⟩],
        formData := emptyForm, editingPlanet := none, selectedPlanet := none } (some 999)).2
      (by decide)⟩

/-- C8. Selection: after selecting `a` then `b` the selection is `b`; closing the
detail view leaves no selection; deleting the id of the selected entry leaves
no selection; selecting and deselecting do not touch the list. -/
theorem selection_exclusive (s : AppState) (a b sel : Planet) :
    (setSelectedPlanet (setSelectedPlanet s (some a)) (some b)).selectedPlanet = some b ∧
    (setSelectedPlanet s none).selectedPlanet = none ∧
    (handleDelete { s with selectedPlanet := some sel } sel.id).selectedPlanet = none ∧
    (setSelectedPlanet s (some a)).planets = s.planets ∧
    (setSelectedPlanet s none).planets = s.planets :=
  ⟨rfl, rfl, rfl, rfl, rfl⟩

/-- C7. `handleDelete` clears the selection whatever the id: with the entry 1
selected, deleting the other entry 2, or the absent id 999, leaves no selection,
so the state differs from the original in the selection. -/
theorem delete_clears_other_selection :
    (handleDelete { planets := [⟨some 1, [77], [82], []⟩, ⟨some 2, [86], [72], []⟩],
                    formData := emptyForm, editingPlanet := none,
                    selectedPlanet := some ⟨some 1, [77], [82], []⟩ } (some 2)).selectedPlanet
      = none ∧
    handleDelete { planets := [⟨some 1, [77], [82], []⟩, ⟨some 2, [86], [72], []⟩],
                   formData := emptyForm, editingPlanet := none,
                   selectedPlanet := some ⟨some 1, [77], [82], []⟩ } (some 999)
      ≠ { planets := [⟨some 1, [77], [82], []⟩, ⟨some 2, [86], [72], []⟩],
          formData := emptyForm, editingPlanet := none,
          selectedPlanet := some ⟨some 1, [77], [82], []⟩ } := by
  decide

/-- Deleting an id that no entry has changes nothing but the selection. -/
theorem handleDelete_absent (s : AppState) (id : Option Int) (h : ∀ p ∈ s.planets, p.id ≠ id) :
    handleDelete s id = { s with selectedPlanet := none } := by
  have hf : s.planets.filter (fun p => p.id ≠ id) = s.planets := by
    simpa [List.filter_eq_self] using h
  simp only [handleDelete, hf]

/-! ## Identifiers -/

/-- C4. Two create-mode submits that read the same `Date.now()` value give two
entries with the same id. -/
theorem same_timestamp_duplicates_id :
    ((run initialState
        [.inputChange .name [77], .inputChange .description [82], .formSubmit 1700000000000,
         .inputChange .name [86], .inputChange .description [72], .formSubmit 1700000000000]
      ).planets.map (fun p => p.id)) = [some 1700000000000, some 1700000000000] ∧
    ¬ ((run initialState
        [.inputChange .name [77], .inputChange .description [82], .formSubmit 1700000000000,
         .inputChange .name [86], .inputChange .description [72], .formSubmit 1700000000000]
      ).planets.map (fun p => p.id)).Nodup := by
  decide

/-! ## Invariants of the draft -/

theorem step_draftTracksEdit (s : AppState) (ev : Event) (h : DraftTracksEdit s) :
    DraftTracksEdit (step s ev) := by
  cases ev with
  | inputChange field value => cases field <;> exact h
  | imageChange result => exact h
  | formSubmit now =>
    intro e he
    cases hed : s.editingPlanet with
    | none => exact absurd he (by simp [step, handleFormSubmit, hed])
    | some editing => exact absurd he (by simp [step, handleFormSubmit, hed])
  | edit planet => intro e he; cases he; rfl
  | cancelEdit => intro e he; cases he
  | delete id => exact h
  | select planet => exact h
  | deselect => exact h

theorem reachable_draftTracksEdit (s0 s : AppState) (h0 : DraftTracksEdit s0)
    (hr : Reachable s0 s) : DraftTracksEdit s := by
  induction hr with
  | init => exact h0
  | next ev _ _ ih => exact step_draftTracksEdit _ ev ih

theorem step_draftIdInv (s : AppState) (ev : Event) (h : DraftIdInv s) (hen : Enabled s ev) :
    DraftIdInv (step s ev) := by
  obtain ⟨hl, he, hn⟩ := h
  cases ev with
  | inputChange field value => cases field <;> exact ⟨hl, he, hn⟩
  | imageChange result => exact ⟨hl, he, hn⟩
  | formSubmit now =>
    cases hed : s.editingPlanet with
    | none =>
      rw [step, handleFormSubmit_creating s now hed]
      refine ⟨?_, ?_, fun _ => rfl⟩
      · intro p hp
        rcases List.mem_append.mp hp with h1 | h1
        · exact hl p h1
        · rw [List.mem_singleton.mp h1]; simp
      · intro e h1; rw [hed] at h1; cases h1
    | some editing =>
      rw [step, handleFormSubmit_editing s now editing hed]
      obtain ⟨hne, hid⟩ := he editing hed
      refine ⟨?_, ?_, fun _ => rfl⟩
      · intro p hp
        obtain ⟨q, hq, rfl⟩ := List.mem_map.mp hp
        by_cases hqe : q.id = editing.id
        · simp only [hqe, if_true, spread]; rw [hid]; exact hne
        · simp only [hqe, if_false]; exact hl q hq
      · intro e h1; cases h1
  | edit planet =>
    refine ⟨hl, ?_, ?_⟩
    · intro e h1
      cases h1
      exact ⟨hl planet hen, rfl⟩
    · intro h1; cases h1
  | cancelEdit => exact ⟨hl, fun e h1 => (by cases h1), fun _ => rfl⟩
  | delete id =>
    refine ⟨?_, he, hn⟩
    intro p hp
    have hp' : p ∈ s.planets.filter (fun p => p.id ≠ id) := hp
    exact hl p (List.mem_filter.mp hp').1
  | select planet => exact ⟨hl, he, hn⟩
  | deselect => exact ⟨hl, he, hn⟩

/-- Distinct ids stay distinct under every event, as long as a create-mode submit
reads a timestamp that is not yet the id of an entry. -/
theorem step_keeps_ids_distinct (s : AppState) (ev : Event)
    (hnd : (s.planets.map (fun p => p.id)).Nodup) (htrack : DraftTracksEdit s)
    (hfresh : ∀ now, ev = .formSubmit now → s.editingPlanet = none →
      some now ∉ s.planets.map (fun p => p.id)) :
    ((step s ev).planets.map (fun p => p.id)).Nodup := by
  cases ev with
  | inputChange field value => cases field <;> exact hnd
  | imageChange result => exact hnd
  | formSubmit now =>
    cases hed : s.editingPlanet with
    | none =>
      rw [step, handleFormSubmit_creating s now hed]
      show ((s.planets ++ [_]).map _).Nodup
      rw [List.map_append, List.nodup_append]
      refine ⟨hnd, by simp, ?_⟩
      intro a ha hb
      simp only [List.map_cons, List.map_nil, List.mem_singleton] at hb
      subst hb
      exact hfresh now rfl hed ha
    | some e =>
      have hid := htrack e hed
      rw [step, handleFormSubmit_editing s now e hed]
      show ((s.planets.map _).map _).Nodup
      rw [List.map_map]
      have hsame : s.planets.map ((fun p => p.id) ∘
          fun p => if p.id = e.id then spread p s.formData else p)
          = s.planets.map (fun p => p.id) := by
        apply List.map_congr_left
        intro p _
        by_cases hp : p.id = e.id
        · simp [hp, spread, hid]
        · simp [hp]
      rw [hsame]
      exact hnd
  | edit planet => exact hnd
  | cancelEdit => exact hnd
  | delete id =>
    show ((s.planets.filter _).map _).Nodup
    exact hnd.sublist ((List.filter_sublist s.planets).map _)
  | select planet => exact hnd
  | deselect => exact hnd

/-- C5. From a start with any list whose entries all have a non-null id (the
empty list in particular), an empty draft, no edit and no selection, every
reachable state has a non-null draft id exactly when an edit is in progress. -/
theorem draft_id_iff_editing (log : List Planet) (hlog : ∀ p ∈ log, p.id ≠ none)
    (s : AppState) (hr : Reachable { initialState with planets := log } s) :
    s.formData.id ≠ none ↔ s.editingPlanet ≠ none := by
  have hinv : DraftIdInv s := by
    induction hr with
    | init => exact ⟨hlog, fun e h1 => (by cases h1), fun _ => rfl⟩
    | next ev _ hen ih => exact step_draftIdInv _ ev ih hen
  obtain ⟨_, he, hn⟩ := hinv
  cases hed : s.editingPlanet with
  | none => simp [hn hed]
  | some e =>
    obtain ⟨hne, hid⟩ := he e hed
    simp [hid, hne]

/-- C5, at a concrete input: one entry is created and then edited. -/
theorem draft_id_iff_editing_witness :
    (∀ p ∈ ([] : List Planet), p.id ≠ none) ∧
    ((step (step initialState (.formSubmit 7)) (.edit ⟨some 7, [], [], []⟩)).formData.id ≠ none ↔
     (step (step initialState (.formSubmit 7)) (.edit ⟨some 7, [], [], []⟩)).editingPlanet ≠ none) :=
  ⟨by decide,
   draft_id_iff_editing [] (by decide) _
     (Reachable.next (.edit ⟨some 7, [], [], []⟩)
       (Reachable.next (.formSubmit 7) Reachable.init trivial) (by decide))⟩

/-- C10. In every state reachable from a start without an edit, the draft
carries the id of the entry being edited; then a submit leaves the sequence of
ids of the list unchanged, and leaves the whole list unchanged when no entry
has that id any more. -/
theorem edit_never_changes_ids (log : List Planet) (s : AppState)
    (hr : Reachable { initialState with planets := log } s)
    (e : Planet) (hed : s.editingPlanet = some e) (now : Int) :
    s.formData.id = e.id ∧
    (handleFormSubmit s now).planets.map (fun p => p.id) = s.planets.map (fun p => p.id) ∧
    ((∀ p ∈ s.planets, p.id ≠ e.id) → (handleFormSubmit s now).planets = s.planets) := by
  have hid : s.formData.id = e.id :=
    reachable_draftTracksEdit _ s (fun e h1 => by cases h1) hr e hed
  rw [handleFormSubmit_editing s now e hed]
  refine ⟨hid, ?_, ?_⟩
  · show (s.planets.map _).map _ = _
    rw [List.map_map]
    apply List.map_congr_left
    intro p _
    by_cases hp : p.id = e.id
    · simp [hp, spread, hid]
    · simp [hp]
  · intro habs
    show s.planets.map _ = s.planets
    conv_rhs => rw [← List.map_id s.planets]
    apply List.map_congr_left
    intro p hp
    simp [habs p hp]

/-- C10, at a concrete input: an entry is created, its edit is begun, the entry
is deleted, and the edit is submitted. -/
theorem edit_never_changes_ids_witness :
    (step (step (step initialState (.formSubmit 7)) (.edit ⟨some 7, [], [], []⟩))
        (.delete (some 7))).editingPlanet = some ⟨some 7, [], [], []⟩ ∧
    (handleFormSubmit (step (step (step initialState (.formSubmit 7))
        (.edit ⟨some 7, [], [], []⟩)) (.delete (some 7))) 9).planets.map (fun p => p.id)
      = (step (step (step initialState (.formSubmit 7)) (.edit ⟨some 7, [], [], []⟩))
        (.delete (some 7))).planets.map (fun p => p.id) :=
  ⟨rfl,
   (edit_never_changes_ids [] _
     (Reachable.next (.delete (some 7))
       (Reachable.next (.edit ⟨some 7, [], [], []⟩)
         (Reachable.next (.formSubmit 7) Reachable.init trivial) (by decide)) trivial)
     ⟨some 7, [], [], []⟩ rfl 9).2.1⟩

/-! ## Scanning and parsing the text written by `JSON.stringify` -/

theorem tokenize_cons (mode mode' : Scan) (c : Nat) (cs : List Nat) (toks more : List Token)
    (h1 : scanStep mode c = some (toks, mode')) (h2 : tokenize mode' cs = some more) :
    tokenize mode (c :: cs) = some (toks ++ more) := by
  simp [tokenize, h1, h2]

theorem tokenize_skip (mode mode' : Scan) (c : Nat) (cs : List Nat)
    (h1 : scanStep mode c = some ([], mode')) :
    tokenize mode (c :: cs) = tokenize mode' cs := by
  simp only [tokenize, h1]
  cases tokenize mode' cs <;> simp

theorem hexVal_hexDigit : ∀ k < 16, hexVal (hexDigit k) = some k := by decide

theorem tokenize_unicodeEscape (acc : JSString) (c : Nat) (hc : c < 65536) (tail : List Nat) :
    tokenize (.str acc) (unicodeEscape c ++ tail) = tokenize (.str (acc ++ [c])) tail := by
  have h1 := hexVal_hexDigit (c / 4096 % 16) (Nat.mod_lt _ (by norm_num))
  have h2 := hexVal_hexDigit (c / 256 % 16) (Nat.mod_lt _ (by norm_num))
  have h3 := hexVal_hexDigit (c / 16 % 16) (Nat.mod_lt _ (by norm_num))
  have h4 := hexVal_hexDigit (c % 16) (Nat.mod_lt _ (by norm_num))
  have hv : (((0 * 16 + c / 4096 % 16) * 16 + c / 256 % 16) * 16 + c / 16 % 16) * 16 + c % 16 = c := by
    omega
  simp only [unicodeEscape, List.cons_append, List.nil_append]
  rw [tokenize_skip (.str acc) (.esc acc) 92 _ (by simp [scanStep])]
  rw [tokenize_skip (.esc acc) (.hex acc 0 0) 117 _ (by simp [scanStep])]
  rw [tokenize_skip (.hex acc 0 0) (.hex acc 1 (0 * 16 + c / 4096 % 16)) _ _ (by simp [scanStep, h1])]
  rw [tokenize_skip (.hex acc 1 _) (.hex acc 2 ((0 * 16 + c / 4096 % 16) * 16 + c / 256 % 16)) _ _
    (by simp [scanStep, h2])]
  rw [tokenize_skip (.hex acc 2 _)
    (.hex acc 3 (((0 * 16 + c / 4096 % 16) * 16 + c / 256 % 16) * 16 + c / 16 % 16)) _ _
    (by simp [scanStep, h3])]
  rw [tokenize_skip (.hex acc 3 _) (.str (acc ++ [c])) _ _ (by simp only [scanStep, h4, if_true, hv])]

theorem tokenize_quoteUnit (acc : JSString) (c : Nat) (tail : List Nat) :
    tokenize (.str acc) (quoteUnit c ++ tail) = tokenize (.str (acc ++ [c])) tail := by
  unfold quoteUnit
  split_ifs with h8 h9 h10 h12 h13 h34 h92 hesc
  · subst h8; exact (tokenize_skip _ (.esc acc) 92 _ (by simp [scanStep])).trans
      (tokenize_skip _ _ 98 _ (by simp [scanStep]))
  · subst h9; exact (tokenize_skip _ (.esc acc) 92 _ (by simp [scanStep])).trans
      (tokenize_skip _ _ 116 _ (by simp [scanStep]))
  · subst h10; exact (tokenize_skip _ (.esc acc) 92 _ (by simp [scanStep])).trans
      (tokenize_skip _ _ 110 _ (by simp [scanStep]))
  · subst h12; exact (tokenize_skip _ (.esc acc) 92 _ (by simp [scanStep])).trans
      (tokenize_skip _ _ 102 _ (by simp [scanStep]))
  · subst h13; exact (tokenize_skip _ (.esc acc) 92 _ (by simp [scanStep])).trans
      (tokenize_skip _ _ 114 _ (by simp [scanStep]))
  · subst h34; exact (tokenize_skip _ (.esc acc) 92 _ (by simp [scanStep])).trans
      (tokenize_skip _ _ 34 _ (by simp [scanStep]))
  · subst h92; exact (tokenize_skip _ (.esc acc) 92 _ (by simp [scanStep])).trans
      (tokenize_skip _ _ 92 _ (by simp [scanStep]))
  · apply tokenize_unicodeEscape
    simp only [isHigh, isLow, Bool.and_eq_true, decide_eq_true_eq] at hesc
    omega
  · simp only [isHigh, isLow, Bool.and_eq_true, decide_eq_true_eq, not_or, not_and, not_lt] at hesc
    exact tokenize_skip _ _ c _ (by simp [scanStep, h34, h92]; omega)

theorem tokenize_pair (acc : JSString) (c d : Nat) (hc : isHigh c = true) (hd : isLow d = true)
    (tail : List Nat) :
    tokenize (.str acc) (c :: d :: tail) = tokenize (.str (acc ++ [c, d])) tail := by
  simp only [isHigh, isLow, Bool.and_eq_true, decide_eq_true_eq] at hc hd
  rw [tokenize_skip (.str acc) (.str (acc ++ [c])) c _ (by
    have h1 : c ≠ 34 := by omega
    have h2 : c ≠ 92 := by omega
    have h3 : ¬ c < 32 := by omega
    simp [scanStep, h1, h2, h3])]
  rw [tokenize_skip (.str (acc ++ [c])) (.str (acc ++ [c, d])) d _ (by
    have h1 : d ≠ 34 := by omega
    have h2 : d ≠ 92 := by omega
    have h3 : ¬ d < 32 := by omega
    simp [scanStep, h1, h2, h3])]

theorem tokenize_quoteBody (s : JSString) : ∀ (acc : JSString) (rest : List Nat) (ts : List Token),
    tokenize .start rest = some ts →
    tokenize (.str acc) (quoteBody s ++ 34 :: rest) = some (.str (acc ++ s) :: ts) := by
  induction s using quoteBody.induct with
  | case1 =>
    intro acc rest ts h
    simpa [quoteBody] using tokenize_cons (.str acc) .start 34 rest [.str acc] ts (by simp [scanStep]) h
  | case2 c =>
    intro acc rest ts h
    rw [quoteBody, tokenize_quoteUnit]
    simpa using tokenize_cons (.str (acc ++ [c])) .start 34 rest [.str (acc ++ [c])] ts
      (by simp [scanStep]) h
  | case3 c d rest' hpair ih =>
    intro acc rest ts h
    simp only [Bool.and_eq_true] at hpair
    rw [quoteBody, if_pos (by simp [hpair.1, hpair.2])]
    rw [List.cons_append, List.cons_append, tokenize_pair acc c d hpair.1 hpair.2, ih _ rest ts h]
    simp
  | case4 c d rest' hpair ih =>
    intro acc rest ts h
    rw [quoteBody, if_neg hpair, List.append_assoc, tokenize_quoteUnit, ih _ rest ts h]
    simp

theorem tokenize_quoteJSONString (s : JSString) (rest : List Nat) (ts : List Token)
    (h : tokenize .start rest = some ts) :
    tokenize .start (quoteJSONString s ++ rest) = some (.str s :: ts) := by
  have h1 := tokenize_quoteBody s [] rest ts h
  simp only [quoteJSONString, List.cons_append, List.append_assoc, List.singleton_append]
  rw [tokenize_skip .start (.str []) 34 _ (by simp [scanStep, scanStart])]
  simpa using h1

theorem tokenize_decimalDigits (m0 : Scan) (neg : Bool)
    (hm : ∀ c, 49 ≤ c → c ≤ 57 → scanStep m0 c = some ([], .int neg (c - 48))) :
    ∀ (fuel n : Nat), 1 ≤ n → n ≤ fuel → ∀ tail : List Nat,
      tokenize m0 (decimalDigits fuel n ++ tail) = tokenize (.int neg n) tail := by
  intro fuel
  induction fuel with
  | zero => intro n h1 h2; omega
  | succ fuel ih =>
    intro n h1 h2 tail
    rw [decimalDigits]
    by_cases hn : n < 10
    · rw [if_pos hn]
      have h := tokenize_skip m0 (.int neg (48 + n - 48)) (48 + n) tail
        (hm (48 + n) (by omega) (by omega))
      simpa using h
    · rw [if_neg hn, List.append_assoc, ih (n / 10) (by omega) (by omega)]
      have hd : isDigit (48 + n % 10) = true := by
        simp only [isDigit, Bool.and_eq_true, decide_eq_true_eq]; omega
      have hv : n / 10 * 10 + (48 + n % 10 - 48) = n := by omega
      exact tokenize_skip _ _ _ _ (by simp only [scanStep, hd, if_true, hv])

theorem ilog2_spec : ∀ (fuel n : Nat), 1 ≤ n → n ≤ fuel →
    2 ^ ilog2 fuel n ≤ n ∧ n < 2 ^ (ilog2 fuel n + 1) := by
  intro fuel
  induction fuel with
  | zero => intro n h1 h2; omega
  | succ fuel ih =>
    intro n h1 h2
    rw [ilog2]
    by_cases hn : n < 2
    · rw [if_pos hn]; simp; omega
    · rw [if_neg hn]
      obtain ⟨hlo, hhi⟩ := ih (n / 2) (by omega) (by omega)
      constructor
      · rw [pow_succ]; omega
      · rw [pow_succ]; omega

theorem roundHalfEven_one (a : Nat) : roundHalfEven a 1 = a := by
  simp [roundHalfEven, Nat.mod_one]

theorem normalize_mul_pow (n : Nat) : ∀ k : Nat, normalize (n * 2 ^ k) k = .finite n 0 := by
  intro k
  induction k with
  | zero => simp [normalize]
  | succ k ih =>
    have he : n * 2 ^ (k + 1) = n * 2 ^ k * 2 := by rw [pow_succ, Nat.mul_assoc]
    have h1 : n * 2 ^ (k + 1) % 2 = 0 := by rw [he]; exact Nat.mul_mod_left _ _
    have h2 : n * 2 ^ (k + 1) / 2 = n * 2 ^ k := by
      rw [he]; exact Nat.mul_div_cancel _ (by norm_num)
    rw [normalize, if_pos h1, h2, ih]

theorem floorLog2_one (n : Nat) (h1 : 1 ≤ n) : floorLog2 n 1 = (ilog2 n n : Int) := by
  have h := (ilog2_spec n n h1 (le_refl _)).1
  have h0 : ilog2 1 1 = 0 := rfl
  simp only [floorLog2, h0]
  simp [h]

/-- An integer below `2 ^ 53` is a double. -/
theorem roundDouble_safe (n : Nat) (hn : n < 9007199254740992) :
    roundDouble n 1 = .finite n 0 := by
  by_cases h0 : n = 0
  · subst h0; rfl
  · have h1 : 1 ≤ n := by omega
    obtain ⟨hlo, _⟩ := ilog2_spec n n h1 (le_refl _)
    have hL : ilog2 n n ≤ 52 := by
      by_contra hc
      have : 2 ^ 53 ≤ 2 ^ ilog2 n n := Nat.pow_le_pow_right (by norm_num) (by omega)
      norm_num at this
      omega
    rw [roundDouble, if_neg h0, floorLog2_one n h1]
    rw [if_neg (by omega)]
    by_cases h52 : ilog2 n n = 52
    · rw [if_pos (by omega), if_neg (by omega)]
      simp [h52, roundHalfEven_one]
    · rw [if_neg (by omega)]
      have hk : (min (52 - (ilog2 n n : Int)) 1074).toNat = 52 - ilog2 n n := by omega
      rw [hk, roundHalfEven_one, normalize_mul_pow]

theorem idNumber_safe (n : Int) (hn : n.natAbs < 9007199254740992) :
    idNumber n = ⟨decide (n < 0), .finite n.natAbs 0⟩ := by
  simp [idNumber, Decimal.toNumber, roundDouble_safe n.natAbs hn]

theorem numberToString_safe (n : Int) (hn : n.natAbs < 9007199254740992) :
    numberToString n = if n < 0 then 45 :: decimalDigits n.natAbs n.natAbs
      else decimalDigits n.natAbs n.natAbs := by
  simp [numberToString, idNumber_safe n hn, integerToString, hn]

theorem tokenize_numberToString (n : Int) (hn : n.natAbs < 9007199254740992)
    (rest : List Nat) (ts : List Token) (h : tokenize .start rest = some ts) :
    tokenize .start (numberToString n ++ 44 :: rest)
      = some (.num ⟨decide (n < 0), n.natAbs, 0⟩ :: .comma :: ts) := by
  have hint : ∀ (neg : Bool) (m : Nat), tokenize (.int neg m) (44 :: rest)
      = some (.num ⟨neg, m, 0⟩ :: .comma :: ts) := fun neg m =>
    tokenize_cons (.int neg m) .start 44 rest [.num ⟨neg, m, 0⟩, .comma] ts
      (by simp [scanStep, isDigit, scanAfterNumber, scanStart]) h
  have hzero : tokenize (.zero false) (44 :: rest)
      = some (.num ⟨false, 0, 0⟩ :: .comma :: ts) :=
    tokenize_cons (.zero false) .start 44 rest [.num ⟨false, 0, 0⟩, .comma] ts
      (by simp [scanStep, scanAfterNumber, scanStart]) h
  rw [numberToString_safe n hn]
  by_cases hneg : n < 0
  · rw [if_pos hneg, List.cons_append,
      tokenize_skip .start .minus 45 _ (by simp [scanStep, scanStart]),
      tokenize_decimalDigits .minus true
        (fun c h1 h2 => by
          have h3 : c ≠ 48 := by omega
          simp [scanStep, h1, h2, h3])
        n.natAbs n.natAbs (by omega) (le_refl _), hint]
    simp [hneg]
  · rw [if_neg hneg]
    by_cases h0 : n.natAbs = 0
    · rw [h0]
      simp only [decimalDigits, List.cons_append, List.nil_append]
      rw [tokenize_skip .start (.zero false) 48 _ (by simp [scanStep, scanStart]), hzero]
      simp [hneg]
    · rw [tokenize_decimalDigits .start false
        (fun c h1 h2 => by
          have h3 : c ≠ 48 := by omega
          have h4 : c ≠ 32 ∧ c ≠ 9 ∧ c ≠ 10 ∧ c ≠ 13 ∧ c ≠ 91 ∧ c ≠ 93 ∧ c ≠ 123 ∧ c ≠ 125
              ∧ c ≠ 58 ∧ c ≠ 44 ∧ c ≠ 34 ∧ c ≠ 45 := by omega
          simp [scanStep, scanStart, h1, h2, h3, h4])
        n.natAbs n.natAbs (by omega) (le_refl _), hint]
      simp [hneg]

theorem tokenize_idText (id : Option Int) (hsafe : SafeId id) (rest : List Nat)
    (ts : List Token) (h : tokenize .start rest = some ts) :
    tokenize .start (idText id ++ 44 :: rest) = some (idToken id :: .comma :: ts) := by
  cases id with
  | none => simp [idText, idToken, tokenize, scanStep, scanStart, h]
  | some n => exact tokenize_numberToString n hsafe rest ts h

theorem tokenize_open_id (tail : List Nat) (ts : List Token)
    (h : tokenize .start tail = some ts) :
    tokenize .start ([123, 34, 105, 100, 34, 58] ++ tail)
      = some (.lbrace :: .str [105, 100] :: .colon :: ts) := by
  simp [tokenize, scanStep, scanStart, h]

theorem tokenize_name_key (tail : List Nat) (ts : List Token)
    (h : tokenize .start tail = some ts) :
    tokenize .start ([34, 110, 97, 109, 101, 34, 58] ++ tail)
      = some (.str [110, 97, 109, 101] :: .colon :: ts) := by
  simp [tokenize, scanStep, scanStart, h]

theorem tokenize_description_key (tail : List Nat) (ts : List Token)
    (h : tokenize .start tail = some ts) :
    tokenize .start ([44, 34, 100, 101, 115, 99, 114, 105, 112, 116, 105, 111, 110, 34, 58] ++ tail)
      = some (.comma :: .str [100, 101, 115, 99, 114, 105, 112, 116, 105, 111, 110] :: .colon
          :: ts) := by
  simp [tokenize, scanStep, scanStart, h]

theorem tokenize_image_key (tail : List Nat) (ts : List Token)
    (h : tokenize .start tail = some ts) :
    tokenize .start ([44, 34, 105, 109, 97, 103, 101, 34, 58] ++ tail)
      = some (.comma :: .str [105, 109, 97, 103, 101] :: .colon :: ts) := by
  simp [tokenize, scanStep, scanStart, h]

theorem tokenize_stringifyPlanet (p : Planet) (hsafe : SafeId p.id) (rest : List Nat)
    (ts : List Token) (h : tokenize .start rest = some ts) :
    tokenize .start (stringifyPlanet p ++ rest) = some (planetTokens p ++ ts) := by
  have h1 : tokenize .start ([125] ++ rest) = some (.rbrace :: ts) :=
    tokenize_cons .start .start 125 rest [.rbrace] ts (by simp [scanStep, scanStart]) h
  have h2 := tokenize_image_key _ _ (tokenize_quoteJSONString p.image _ _ h1)
  have h3 := tokenize_description_key _ _ (tokenize_quoteJSONString p.description _ _ h2)
  have h4 := tokenize_name_key _ _ (tokenize_quoteJSONString p.name _ _ h3)
  have h5 := tokenize_open_id _ _ (tokenize_idText p.id hsafe _ _ h4)
  have e : stringifyPlanet p ++ rest =
      [123, 34, 105, 100, 34, 58] ++ (idText p.id ++ 44 :: ([34, 110, 97, 109, 101, 34, 58] ++
      (quoteJSONString p.name ++
      ([44, 34, 100, 101, 115, 99, 114, 105, 112, 116, 105, 111, 110, 34, 58] ++
      (quoteJSONString p.description ++ ([44, 34, 105, 109, 97, 103, 101, 34, 58] ++
      (quoteJSONString p.image ++ ([125] ++ rest)))))))) := by
    simp [stringifyPlanet]
  rw [e, h5]
  rfl

theorem tokenize_morePlanets (l : List Planet) (hsafe : ∀ p ∈ l, SafeId p.id)
    (rest : List Nat) (ts : List Token) (h : tokenize .start rest = some ts) :
    tokenize .start (morePlanets l ++ rest) = some (moreTokens l ++ ts) := by
  induction l with
  | nil => simpa [morePlanets, moreTokens] using h
  | cons q l ih =>
    have h1 := tokenize_stringifyPlanet q (hsafe q (List.mem_cons_self _ _)) _ _
      (ih (fun p hp => hsafe p (List.mem_cons_of_mem _ hp)))
    have h2 := tokenize_cons .start .start 44 _ [.comma] _ (by simp [scanStep, scanStart]) h1
    simpa [morePlanets, moreTokens] using h2

theorem tokenize_stringify (l : List Planet) (hsafe : ∀ p ∈ l, SafeId p.id) :
    tokenize .start (JSON.stringify l) = some (.lbrack :: joinTokens l ++ [.rbrack]) := by
  have h0 : tokenize .start [93] = some [.rbrack] := by
    simp [tokenize, scanStep, scanStart, scanEnd]
  unfold JSON.stringify
  rw [List.cons_append, tokenize_cons .start .start 91 _ [.lbrack] (joinTokens l ++ [.rbrack])
    (by simp [scanStep, scanStart])]
  · rfl
  · cases l with
    | nil => simpa [joinPlanets, joinTokens] using h0
    | cons p l =>
      have h1 := tokenize_stringifyPlanet p (hsafe p (List.mem_cons_self _ _)) _ _
        (tokenize_morePlanets l (fun q hq => hsafe q (List.mem_cons_of_mem _ hq)) _ _ h0)
      simpa [joinPlanets, joinTokens] using h1

theorem parseTokens_planetTokens (p : Planet) (stack : List Frame) (ts : List Token) :
    parseTokens (.value stack) (planetTokens p ++ ts)
      = parseTokens (complete p.toJS stack) ts := by
  obtain ⟨id, name, description, image⟩ := p
  cases id <;> rfl

theorem parseTokens_arrOpen_planetTokens (p : Planet) (stack : List Frame) (ts : List Token) :
    parseTokens (.arrOpen stack) (planetTokens p ++ ts)
      = parseTokens (.arrNext [p.toJS] stack) ts := by
  rw [← show complete p.toJS (.arr [] :: stack) = .arrNext [p.toJS] stack from rfl,
    ← parseTokens_planetTokens]
  simp [planetTokens, parseTokens, parseStep, parseValue]

theorem parseTokens_moreTokens (l : List Planet) :
    ∀ (items : List JSValue) (stack : List Frame) (ts : List Token),
      parseTokens (.arrNext items stack) (moreTokens l ++ ts)
        = parseTokens (.arrNext (items ++ l.map Planet.toJS) stack) ts := by
  induction l with
  | nil => intro items stack ts; simp [moreTokens]
  | cons q l ih =>
    intro items stack ts
    have h1 : parseTokens (.arrNext items stack) (moreTokens (q :: l) ++ ts)
        = parseTokens (.value (.arr items :: stack)) (planetTokens q ++ (moreTokens l ++ ts)) := by
      simp [moreTokens, parseTokens, parseStep]
    rw [h1, parseTokens_planetTokens, complete, ih]
    simp

theorem parseTokens_stringify (l : List Planet) :
    parseTokens (.value []) (.lbrack :: joinTokens l ++ [.rbrack]) = some (planetsToJS l) := by
  cases l with
  | nil => rfl
  | cons p l =>
    have h1 : parseTokens (.value []) (.lbrack :: joinTokens (p :: l) ++ [.rbrack])
        = parseTokens (.arrOpen []) (planetTokens p ++ (moreTokens l ++ [.rbrack])) := by
      simp [joinTokens, parseTokens, parseStep, parseValue]
    rw [h1, parseTokens_arrOpen_planetTokens, parseTokens_moreTokens]
    simp [parseTokens, parseStep, complete, planetsToJS]

theorem parse_stringify (l : List Planet) (hsafe : ∀ p ∈ l, SafeId p.id) :
    JSON.parse (JSON.stringify l) = .ok (planetsToJS l) := by
  simp only [JSON.parse, tokenize_stringify l hsafe, parseTokens_stringify]
  rfl

theorem idValue_injective (a b : Option Int) (ha : SafeId a) (hb : SafeId b)
    (h : idValue a = idValue b) : a = b := by
  cases a with
  | none => cases b with
    | none => rfl
    | some n => simp [idValue] at h
  | some m => cases b with
    | none => simp [idValue] at h
    | some n =>
      simp only [idValue, idNumber_safe m ha, idNumber_safe n hb, JSValue.num.injEq,
        JSNumber.mk.injEq, Magnitude.finite.injEq, decide_eq_decide, and_true] at h
      congr 1
      omega

theorem toJS_injective (p q : Planet) (hp : SafeId p.id) (hq : SafeId q.id)
    (h : p.toJS = q.toJS) : p = q := by
  cases p; cases q
  simp only [Planet.toJS, JSValue.obj.injEq, List.cons.injEq, Prod.mk.injEq, true_and,
    JSValue.str.injEq, and_true] at h
  obtain ⟨h1, h2, h3, h4⟩ := h
  dsimp only at hp hq
  rw [idValue_injective _ _ hp hq h1, h2, h3, h4]

theorem planetsToJS_injective : ∀ (l m : List Planet), (∀ p ∈ l, SafeId p.id) →
    (∀ p ∈ m, SafeId p.id) → planetsToJS l = planetsToJS m → l = m := by
  intro l
  induction l with
  | nil =>
    intro m _ _ h
    cases m with
    | nil => rfl
    | cons q m => simp [planetsToJS] at h
  | cons p l ih =>
    intro m hl hm h
    cases m with
    | nil => simp [planetsToJS] at h
    | cons q m =>
      simp only [planetsToJS, List.map_cons, JSValue.arr.injEq, List.cons.injEq] at h
      have h1 := toJS_injective p q (hl p (List.mem_cons_self _ _))
        (hm q (List.mem_cons_self _ _)) h.1
      have h2 := ih m (fun x hx => hl x (List.mem_cons_of_mem _ hx))
        (fun x hx => hm x (List.mem_cons_of_mem _ hx))
        (by simp only [planetsToJS, JSValue.arr.injEq]; exact h.2)
      rw [h1, h2]

theorem loadPlanets_ok (item : Option JSString) (v : JSValue)
    (h : JSON.parse (itemText item) = .ok v) :
    loadPlanets item = .ok (if toBoolean v then v else .arr []) := by
  unfold loadPlanets
  rw [h]
  cases hb : toBoolean v <;>
    simp [tryCatch, tryCatchThe, MonadExceptOf.tryCatch, Except.tryCatch, bind, Except.bind,
      pure, Except.pure, hb]

theorem loadPlanets_error (item : Option JSString) (err : JSError)
    (h : JSON.parse (itemText item) = .error err) :
    loadPlanets item = .ok (.arr []) := by
  unfold loadPlanets
  rw [h]
  rfl

/-- C9 as stated fails on a stored text with white space between its tokens: the
text is a well-formed stored list (it loads as a list of one entry with a safe
id), and persisting the loaded list writes a different text. -/
theorem persist_rewrites_stored_text :
    (∀ p ∈ [(⟨some 1, [77], [82], []⟩ : Planet)], SafeId p.id) ∧
    loadPlanets (some (utf16
        "[ \x7b \"id\": 1, \"name\": \"M\", \"description\": \"R\", \"image\": \"\" \x7d ]"))
      = .ok (planetsToJS [⟨some 1, [77], [82], []⟩]) ∧
    persistPlanets [⟨some 1, [77], [82], []⟩]
      ≠ utf16
        "[ \x7b \"id\": 1, \"name\": \"M\", \"description\": \"R\", \"image\": \"\" \x7d ]" :=
  ⟨by decide, rfl, by decide⟩

/-- C9. Persistence round trip, for every list of entries whose ids are null or
integers below `2 ^ 53` in absolute value: loading the text that the persist
effect writes gives that list (as the array of its entries); whatever such list
the loaded value is, it is the persisted list, so that persisting it again
writes the same text; and for every stored text that loads as the list,
persisting the list and loading again gives what the stored text gave. -/
theorem persistence_round_trip (planets : List Planet)
    (hsafe : ∀ p ∈ planets, SafeId p.id) :
    loadPlanets (some (persistPlanets planets)) = .ok (planetsToJS planets) ∧
    (∀ loaded : List Planet, (∀ p ∈ loaded, SafeId p.id) →
      loadPlanets (some (persistPlanets planets)) = .ok (planetsToJS loaded) →
      loaded = planets ∧ persistPlanets loaded = persistPlanets planets) ∧
    (∀ text : JSString, loadPlanets (some text) = .ok (planetsToJS planets) →
      loadPlanets (some (persistPlanets planets)) = loadPlanets (some text)) := by
  have h : loadPlanets (some (persistPlanets planets)) = .ok (planetsToJS planets) := by
    rw [loadPlanets_ok (some (persistPlanets planets)) _ (parse_stringify planets hsafe)]
    rfl
  refine ⟨h, ?_, ?_⟩
  · intro loaded hloaded hl
    rw [h] at hl
    have := planetsToJS_injective _ _ hsafe hloaded (Except.ok.inj hl)
    subst this
    exact ⟨rfl, rfl⟩
  · intro text ht
    rw [h, ht]

/-- C9, at a concrete input: a stored text with extra white space loads as a list
of one entry; persisting that list and loading again gives the same value. -/
theorem persistence_round_trip_witness :
    (∀ p ∈ [(⟨some 1700000000000, [77], [82], []⟩ : Planet)], SafeId p.id) ∧
    loadPlanets (some (utf16 ("[ \x7b \"id\": 1700000000000, \"name\": \"M\", " ++
        "\"description\": \"R\", \"image\": \"\" \x7d ]")))
      = .ok (planetsToJS [⟨some 1700000000000, [77], [82], []⟩]) ∧
    loadPlanets (some (persistPlanets [⟨some 1700000000000, [77], [82], []⟩]))
      = loadPlanets (some (utf16 ("[ \x7b \"id\": 1700000000000, \"name\": \"M\", " ++
        "\"description\": \"R\", \"image\": \"\" \x7d ]"))) :=
  ⟨by decide, rfl,
   (persistence_round_trip [⟨some 1700000000000, [77], [82], []⟩] (by decide)).2.2 _ rfl⟩

/-- What the guards of the mount effect do achieve: for every content of the
storage key the effect ends without an exception; when the key is missing, when
the content is not a JSON text, or when it is the JSON text of a falsy value
(`null`, `false`, zero, the empty string), `planets` is left as the empty
array. -/
theorem load_guards (item : Option JSString) :
    (∃ planets, loadPlanets item = .ok planets) ∧
    (item = none → loadPlanets item = .ok (.arr [])) ∧
    (∀ text, item = some text → JSON.parse text = .error .syntaxError →
      loadPlanets item = .ok (.arr [])) ∧
    (∀ text v, item = some text → JSON.parse text = .ok v → toBoolean v = false →
      loadPlanets item = .ok (.arr [])) := by
  refine ⟨?_, ?_, ?_, ?_⟩
  · cases h : JSON.parse (itemText item) with
    | error err => exact ⟨_, loadPlanets_error item err h⟩
    | ok v => exact ⟨_, loadPlanets_ok item v h⟩
  · intro h; subst h; rfl
  · intro text h herr; subst h
    exact loadPlanets_error (some text) _ herr
  · intro text v h hv hb; subst h
    rw [loadPlanets_ok (some text) v hv, hb]
    rfl

/-- The content `not valid json` is not a JSON text, and leaves the empty array. -/
theorem load_guards_witness :
    JSON.parse [110, 111, 116, 32, 118, 97, 108, 105, 100, 32, 106, 115, 111, 110]
      = .error .syntaxError ∧
    loadPlanets (some [110, 111, 116, 32, 118, 97, 108, 105, 100, 32, 106, 115, 111, 110])
      = .ok (.arr []) :=
  ⟨rfl, (load_guards (some [110, 111, 116, 32, 118, 97, 108, 105, 100, 32, 106, 115, 111, 110])).2.2.1
    _ rfl rfl⟩

/-- C6. The mount effect on the content `{"a":1}`: the content is the text of no
list of entries, yet it is a JSON text of a truthy value, so the effect stores
that value, an object and not an array, in `planets`; `planets` is then not the
empty array the fallback promises. -/
theorem load_keeps_non_log_value :
    (∀ l : List Planet, JSON.parse [123, 34, 97, 34, 58, 49, 125] ≠ .ok (planetsToJS l)) ∧
    loadPlanets (some [123, 34, 97, 34, 58, 49, 125])
      = .ok (.obj [([97], .num ⟨false, .finite 1 0⟩)]) ∧
    (∀ items : List JSValue, loadPlanets (some [123, 34, 97, 34, 58, 49, 125]) ≠ .ok (.arr items)) := by
  have hp : JSON.parse [123, 34, 97, 34, 58, 49, 125]
      = .ok (.obj [([97], .num ⟨false, .finite 1 0⟩)]) := rfl
  have hl : loadPlanets (some [123, 34, 97, 34, 58, 49, 125])
      = .ok (.obj [([97], .num ⟨false, .finite 1 0⟩)]) := rfl
  refine ⟨?_, hl, ?_⟩
  · intro l h
    rw [hp] at h
    simp [planetsToJS] at h
  · intro items
    rw [hl]
    intro h
    simp at h

/-! ## The texts behind the code units -/

theorem itemText_none_text : itemText none = utf16 "null" := by decide

theorem stringify_example :
    JSON.stringify [⟨some 1, utf16 "Mars", utf16 "Red planet", []⟩, ⟨none, [10], [], []⟩]
      = utf16 ("[\x7b\"id\":1,\"name\":\"Mars\",\"description\":\"Red planet\",\"image\":\"\"\x7d," ++
          "\x7b\"id\":null,\"name\":\"\\n\",\"description\":\"\",\"image\":\"\"\x7d]") := by
  decide

theorem not_valid_json_text :
    utf16 "not valid json" = [110, 111, 116, 32, 118, 97, 108, 105, 100, 32, 106, 115, 111, 110] := by
  decide

theorem non_log_text : utf16 "\x7b\"a\":1\x7d" = [123, 34, 97, 34, 58, 49, 125] := by decide

/-! ## Numbers at the edge of the integers that are doubles -/

theorem parse_fraction_of_integer :
    JSON.parse (utf16 "1.0") = .ok (.num ⟨false, .finite 1 0⟩) := rfl

theorem parse_rounds_to_double :
    JSON.parse (utf16 "9007199254740993") = .ok (.num ⟨false, .finite 9007199254740992 0⟩) := rfl

theorem numberToString_rounds_to_double :
    numberToString 9007199254740993 = utf16 "9007199254740992" := by decide

theorem numberToString_shortest_digits :
    numberToString 18446744073709551616 = utf16 "18446744073709552000" := by decide

theorem numberToString_exponent :
    numberToString 1000000000000000000000 = utf16 "1e+21" ∧
    numberToString 1180591620717411303424 = utf16 "1.1805916207174113e+21" := by decide

end ExplorationLog
